import Mathlib

/-!
Verification development for the semantic-cache threshold optimizer of the
redis-ai-resources repository.

The repository's notebooks call `SemanticCache` and `CacheThresholdOptimizer`
from the external `redisvl` library; the notebooks themselves contain only the
calls, plus two small pieces of glue logic (`to_semantic_cache` in
`01_doc2cache_llama3_1.ipynb` and `replace_year` in `00_redis_intro.ipynb`).
The optimizer and cache-check semantics below are therefore modelled from the
specification (spec.md sections 3, 4.1, 6, 7); the glue functions are
translated directly from the notebook source.

Distances and thresholds are rationals; machine floating point is abstracted
to exact arithmetic.
-/

/-- Modelled from the spec (section 3, section 6): a stored cache entry -- a
(prompt, response) pair with a derived embedding vector and a unique
identifier.  The `SemanticCache` entry representation itself lives in the
external `redisvl` library and is absent from the repository. -/
structure CacheEntry where
  entry_id : String
  prompt : String
  response : String
  vector : List ℚ
deriving DecidableEq

/-- Modelled from the spec (sections 3 and 6): the semantic cache seen through
its narrow capability interface -- a list of stored entries, a mutable
`distance_threshold`, an embedding-distance oracle `dist` standing for the
external vectorizer plus vector search, and `fails`, which marks the queries on
which the upstream store call raises (section 7, UpstreamFailure).  The real
`SemanticCache` lives in the external `redisvl` library and is absent from the
repository. -/
structure Cache where
  entries : List CacheEntry
  distance_threshold : ℚ
  dist : String → CacheEntry → ℚ
  fails : String → Bool

/-- A test case: a query string and the identifier of the entry that should be
returned, or the empty string meaning that no match is correct (spec section
3, TestCase). -/
structure TestCase where
  query : String
  query_match : String
deriving DecidableEq

/-- Modelled from the spec (glossary and section 6): `check` returns the
stored entries whose distance to the query is at most the active
`distance_threshold`, as (identifier, distance) pairs sorted by ascending
distance.  The glossary fixes the hit convention: the threshold is the maximum
allowed vector distance for a lookup to count as a hit. -/
def Cache.check (c : Cache) (q : String) : List (String × ℚ) :=
  List.insertionSort (fun a b => a.2 ≤ b.2)
    ((c.entries.map fun e => (e.entry_id, c.dist q e)).filter
      fun m => decide (m.2 ≤ c.distance_threshold))

/-- Modelled from the spec (section 4.1): the initial distance-collection pass
runs `check` at a generous threshold, so every test query observes its nearest
stored entry regardless of the currently active threshold.  Returns the
(identifier, distance) of the nearest entry, or `none` when the cache stores
nothing. -/
def nearest (c : Cache) (q : String) : Option (String × ℚ) :=
  match c.entries.map (fun e => (e.entry_id, c.dist q e)) with
  | [] => none
  | m :: ms => some (ms.foldl (fun best x => if x.2 < best.2 then x else best) m)

/-- The observation the optimizer records for one test case: the expected
identifier and the nearest match found during the distance-collection pass. -/
structure Obs where
  expected : String
  found : Option (String × ℚ)
deriving DecidableEq

/-- The two error kinds of the design (spec section 7): InvalidInput and
UpstreamFailure. -/
inductive OptError where
  | invalidInput
  | upstreamFailure
deriving DecidableEq

/-- Modelled from the spec (sections 5 and 7): one blocking `check` round trip
per test case; if the upstream store call raises for this query the failure is
propagated, otherwise the observation is recorded. -/
def observeE (c : Cache) (t : TestCase) : Except OptError Obs :=
  if c.fails t.query then Except.error OptError.upstreamFailure
  else Except.ok { expected := t.query_match, found := nearest c t.query }

instance {ε α : Type} [DecidableEq ε] [DecidableEq α] : DecidableEq (Except ε α) := fun x y =>
  match x, y with
  | Except.ok a, Except.ok b =>
    match decEq a b with
    | isTrue h => isTrue (congrArg Except.ok h)
    | isFalse h => isFalse fun hh => h (Except.ok.inj hh)
  | Except.error a, Except.error b =>
    match decEq a b with
    | isTrue h => isTrue (congrArg Except.error h)
    | isFalse h => isFalse fun hh => h (Except.error.inj hh)
  | Except.ok _, Except.error _ => isFalse fun hh => Except.noConfusion hh
  | Except.error _, Except.ok _ => isFalse fun hh => Except.noConfusion hh

/-- Sequential fallible map: calls are issued one after the other and the
first failure aborts the whole run (spec sections 5 and 7: no partial-failure
semantics). -/
def mapExcept (f : α → Except OptError β) : List α → Except OptError (List β)
  | [] => Except.ok []
  | a :: as =>
    match f a with
    | Except.error e => Except.error e
    | Except.ok b =>
      match mapExcept f as with
      | Except.error e => Except.error e
      | Except.ok bs => Except.ok (b :: bs)

/-- A recorded observation counts as a correct hit at threshold θ when a match
was found, its distance is at most θ, and its identifier equals the expected
one. -/
def hitCorrect (o : Obs) (θ : ℚ) : Bool :=
  match o.found with
  | some m => decide (m.2 ≤ θ) && (m.1 == o.expected)
  | none => false

/-- Modelled from the spec (section 4.1): true positive -- the returned
match's id equals the (non-empty) expected id.  An empty expected id means "no
cache hit should occur" (section 3), so a hit there is never a true
positive. -/
def isTP (o : Obs) (θ : ℚ) : Bool :=
  (o.expected != "") && hitCorrect o θ

/-- Modelled from the spec (section 4.1): false positive -- a match is
returned at threshold θ but its id does not equal the expected one, or a match
is returned when the expected id is empty. -/
def isFP (o : Obs) (θ : ℚ) : Bool :=
  match o.found with
  | some m => decide (m.2 ≤ θ) && ((o.expected == "") || (m.1 != o.expected))
  | none => false

/-- Modelled from the spec (section 4.1): false negative -- the expected id is
non-empty but no match is returned at threshold θ, or the returned match has
the wrong id. -/
def isFN (o : Obs) (θ : ℚ) : Bool :=
  (o.expected != "") && !(hitCorrect o θ)

/-- Number of true positives over the observations at threshold θ. -/
def tpCount (obs : List Obs) (θ : ℚ) : ℕ := (obs.filter fun o => isTP o θ).length

/-- Number of false positives over the observations at threshold θ. -/
def fpCount (obs : List Obs) (θ : ℚ) : ℕ := (obs.filter fun o => isFP o θ).length

/-- Number of false negatives over the observations at threshold θ. -/
def fnCount (obs : List Obs) (θ : ℚ) : ℕ := (obs.filter fun o => isFN o θ).length

/-- Number of test cases whose expected match is non-empty. -/
def posCount (obs : List Obs) : ℕ := (obs.filter fun o => o.expected != "").length

/-- The classification metrics of the glossary, computed from confusion
counts.  `Rat.divInt x 0 = 0`, matching the usual convention that an undefined
precision or recall scores zero. -/
def metricScore (m : String) (tp fp fn : ℕ) : ℚ :=
  match m with
  | "precision" => Rat.divInt (tp : ℤ) ((tp : ℤ) + (fp : ℤ))
  | "recall" => Rat.divInt (tp : ℤ) ((tp : ℤ) + (fn : ℤ))
  | _ => Rat.divInt (2 * (tp : ℤ)) (2 * (tp : ℤ) + (fp : ℤ) + (fn : ℤ))

/-- Score of a candidate threshold: the requested metric applied to the
confusion counts obtained by reclassifying every observation at θ (spec
section 4.1). -/
def score (obs : List Obs) (m : String) (θ : ℚ) : ℚ :=
  metricScore m (tpCount obs θ) (fpCount obs θ) (fnCount obs θ)

/-- Modelled from the spec (section 4.1): the candidate thresholds are the set
of observed distances across all test cases, as a sorted list. -/
def candidates (obs : List Obs) : List ℚ :=
  List.insertionSort (fun a b => a ≤ b)
    (obs.filterMap fun o => o.found.map Prod.snd).dedup

/-- Left fold selecting the candidate with the maximum score; a later
candidate replaces the current best only when its score is strictly greater,
so on a sorted candidate list ties are broken toward the smallest threshold
(spec section 4.1). -/
def pickBest (f : ℚ → ℚ) (b : ℚ) : List ℚ → ℚ
  | [] => b
  | x :: xs => pickBest f (if f b < f x then x else b) xs

/-- The winning threshold among the candidates, when any candidate exists. -/
def bestThreshold (obs : List Obs) (m : String) : Option ℚ :=
  match candidates obs with
  | [] => none
  | c :: cs => some (pickBest (score obs m) c cs)

/-- The metric names accepted by the optimizer (spec section 4.1). -/
def validMetric (m : String) : Bool :=
  m == "f1" || m == "precision" || m == "recall"

/-- Applies the winning threshold to the cache; when no distance was observed
there is no evaluated candidate and the cache is left untouched. -/
def runOpt (c : Cache) (obs : List Obs) (m : String) : Cache :=
  match bestThreshold obs m with
  | none => c
  | some w => { c with distance_threshold := w }

/-- Modelled from the spec (section 4.1, `CacheThresholdOptimizer.optimize`,
whose implementation lives in the external `redisvl` library and is absent
from the repository): validates the inputs (section 7, InvalidInput), runs the
distance-collection pass sequentially with first-failure abort, grades every
observed distance as a candidate threshold under the requested metric, and
applies the maximum-score candidate with smallest-threshold tie-break. -/
def optimize (c : Cache) (td : List TestCase) (m : String) : Except OptError Cache :=
  if td.isEmpty then Except.error OptError.invalidInput
  else if validMetric m then
    match mapExcept (observeE c) td with
    | Except.error e => Except.error e
    | Except.ok obs => Except.ok (runOpt c obs m)
  else Except.error OptError.invalidInput

/-- The cache state after an optimization run; a failed run leaves the caller
holding the unchanged cache. -/
def cacheAfter (c : Cache) (td : List TestCase) (m : String) : Cache :=
  match optimize c td m with
  | Except.ok d => d
  | Except.error _ => c

/-- The active distance threshold after an optimization run. -/
def thresholdAfter (c : Cache) (td : List TestCase) (m : String) : ℚ :=
  (cacheAfter c td m).distance_threshold

/-- The candidate thresholds evaluated during a run, when the
distance-collection pass succeeds. -/
def runCandidates (c : Cache) (td : List TestCase) : List ℚ :=
  match mapExcept (observeE c) td with
  | Except.ok obs => candidates obs
  | Except.error _ => []

/-- Replaces the active distance threshold, leaving entries untouched. -/
def setThreshold (c : Cache) (θ : ℚ) : Cache :=
  { c with distance_threshold := θ }

/-- Total number of matches returned by `check` over a fixed query set. -/
def matchCount (c : Cache) (qs : List String) : ℕ :=
  (qs.map fun q => (c.check q).length).sum

/-- One stored entry for the concrete scenario of the spec (section 8,
example): the "capital of france" entry whose stored key is `K1`. -/
def parisEntry : CacheEntry :=
  { entry_id := "K1", prompt := "what is the capital of france?",
    response := "paris", vector := [] }

/-- A concrete distance oracle: the France paraphrase sits at distance 0.08
from the stored entry and every other query at distance 0.42 (the two observed
distances of the spec example). -/
def exDist (q : String) (_e : CacheEntry) : ℚ :=
  if q = "capital of France?" then mkRat 2 25 else mkRat 21 50

/-- An upstream collaborator that never raises. -/
def noFail (_q : String) : Bool := false

/-- The concrete cache of the spec example: one entry, initial threshold
0.5. -/
def exCache : Cache :=
  { entries := [parisEntry], distance_threshold := mkRat 1 2,
    dist := exDist, fails := noFail }

/-- The concrete labeled test set of the spec example: the Britain query has
no correct match, the France query should return `K1`. -/
def exTd : List TestCase :=
  [{ query := "capital of Britain?", query_match := "" },
   { query := "capital of France?", query_match := "K1" }]

/-- The observations the distance-collection pass records on `exCache` and
`exTd`. -/
def exObs : List Obs :=
  [{ expected := "", found := some ("K1", mkRat 21 50) },
   { expected := "K1", found := some ("K1", mkRat 2 25) }]

/-- A cache storing no entries: no distance can ever be observed. -/
def emptyCache : Cache :=
  { entries := [], distance_threshold := mkRat 1 2,
    dist := exDist, fails := noFail }

/-- A cache whose upstream call raises on the Britain query. -/
def failCache : Cache :=
  { entries := [parisEntry], distance_threshold := mkRat 1 2,
    dist := exDist, fails := fun q => q == "capital of Britain?" }

/-- An element of the `faqs` list of `to_semantic_cache`
(01_doc2cache_llama3_1.ipynb): a JSON object modelled as an association list
of string keys and values, or `none` for a falsy element such as Python
`None`; a Python dict is truthy exactly when it is non-empty. -/
def Faq : Type := Option (List (String × String))

/-- Python `"k" in faq` on a dict: some key of the association list equals
`k`. -/
def hasKey (kvs : List (String × String)) (k : String) : Bool :=
  kvs.any fun p => p.1 == k

/-- Python `faq[k]` on a dict: the value stored under `k` (first binding);
defaults to the empty string, which the guarded call sites never reach. -/
def getKey (kvs : List (String × String)) (k : String) : String :=
  match kvs.find? (fun p => p.1 == k) with
  | some p => p.2
  | none => ""

/-- The semantic-cache instance built by `to_semantic_cache`
(01_doc2cache_llama3_1.ipynb), seen through the part the notebook exercises:
its name, its configured distance threshold, and the (prompt, response) pairs
stored in order.  `store` itself is library code; storing appends the pair. -/
structure DocCache where
  name : String
  distance_threshold : ℚ
  stored : List (String × String)
deriving DecidableEq

/-- `cache.store(prompt=..., response=...)`: records the pair, in call
order. -/
def DocCache.store (c : DocCache) (prompt response : String) : DocCache :=
  { c with stored := c.stored ++ [(prompt, response)] }

/-- The loop body of `to_semantic_cache` (01_doc2cache_llama3_1.ipynb, cell
defining the function): `if faq and "question" in faq and "answer" in faq:
cache.store(prompt=faq["question"], response=faq["answer"])`.  A falsy `faq`
short-circuits the condition, so `None` elements are skipped without
evaluating `in`. -/
def storeFaq (cache : DocCache) (faq : Faq) : DocCache :=
  match faq with
  | some kvs =>
    if !kvs.isEmpty && hasKey kvs "question" && hasKey kvs "answer" then
      cache.store (getKey kvs "question") (getKey kvs "answer")
    else cache
  | none => cache

/-- `to_semantic_cache` from 01_doc2cache_llama3_1.ipynb: builds the
`amzn_10k_cache` semantic cache with distance threshold 0.2 and stores every
well-formed FAQ in list order. -/
def to_semantic_cache (faqs : List Faq) : DocCache :=
  faqs.foldl storeFaq
    { name := "amzn_10k_cache", distance_threshold := mkRat 1 5, stored := [] }

/-- The claim's characterisation of the elements `to_semantic_cache` keeps: a
truthy element that contains both a "question" and an "answer" key. -/
def faqValid (f : Faq) : Bool :=
  match f with
  | some kvs => !kvs.isEmpty && hasKey kvs "question" && hasKey kvs "answer"
  | none => false

/-- The (prompt, response) pair a kept FAQ contributes to the cache. -/
def extractQA (f : Faq) : String × String :=
  match f with
  | some kvs => (getKey kvs "question", getKey kvs "answer")
  | none => ("", "")

/-- The `roman_numerals` list of 00_redis_intro.ipynb, verbatim. -/
def roman_numerals : List String :=
  ["0", "(I)", "(II)", "(III)", "(IV)", "(V)", "(VI)", "(VII)", "(VIII)",
   "(IX)", "(XI)", "(XII)", "(XVI)", "(XIV)", "(XXXIII)", "(XVIII)", "(XIX)",
   "(XXVII)"]

/-- Value of a non-empty digit string, as Python `int` reads it. -/
def digitsVal (cs : List Char) : Option ℕ :=
  if cs.isEmpty then none
  else
    cs.foldl
      (fun acc c =>
        match acc with
        | some n => if c.isDigit then some (n * 10 + (c.toNat - 48)) else none
        | none => none)
      (some 0)

/-- Python `int(x)` on a string, restricted to an optional sign followed by
digits; `none` stands for the `ValueError` Python raises on anything else. -/
def parseInt (s : String) : Option ℤ :=
  match s.data with
  | '-' :: rest => (digitsVal rest).map fun n => -(n : ℤ)
  | '+' :: rest => (digitsVal rest).map fun n => (n : ℤ)
  | l => (digitsVal l).map fun n => (n : ℤ)

/-- Days from 1-01-01 to Jan 1 of year `y` in the proleptic Gregorian
calendar. -/
def daysFromCE (y : ℕ) : ℕ :=
  365 * (y - 1) + (y - 1) / 4 - (y - 1) / 100 + (y - 1) / 400

/-- Python `datetime.datetime(y, 1, 1).timestamp()` modelled in UTC: whole
seconds since the Unix epoch at midnight, Jan 1 of year `y`. -/
def timestampOfJan1 (y : ℕ) : ℤ :=
  ((daysFromCE y : ℤ) - (daysFromCE 1970 : ℤ)) * 86400

/-- `replace_year` from 00_redis_intro.ipynb: roman-numeral year strings map
to the timestamp of 1998-01-01, anything else to the timestamp of Jan 1 of
year `int(x)`; `none` stands for the exception raised when `int(x)` fails or
the year is outside `datetime`'s range 1..9999. -/
def replace_year (x : String) : Option ℤ :=
  if x ∈ roman_numerals then some (timestampOfJan1 1998)
  else
    match parseInt x with
    | some y => if 1 ≤ y ∧ y ≤ 9999 then some (timestampOfJan1 y.toNat) else none
    | none => none

lemma length_filter_mono {α : Type} (p q : α → Bool)
    (l : List α) (h : ∀ a ∈ l, p a = true → q a = true) :
    (l.filter p).length ≤ (l.filter q).length := by
  induction l with
  | nil => simp
  | cons a l ih =>
    have hrest := ih (fun x hx => h x (List.mem_cons_of_mem a hx))
    by_cases hp : p a = true
    · have hq := h a (List.mem_cons_self a l) hp
      simp [List.filter_cons, hp, hq]
      omega
    · simp only [List.filter_cons]
      rw [Bool.not_eq_true] at hp
      rw [hp]
      by_cases hq : q a = true
      · simp [hq]
        omega
      · rw [Bool.not_eq_true] at hq
        rw [hq]
        exact hrest

lemma pickBest_cons (f : ℚ → ℚ) (b x : ℚ) (xs : List ℚ) :
    pickBest f b (x :: xs) = pickBest f (if f b < f x then x else b) xs := rfl

lemma pickBest_mem (f : ℚ → ℚ) :
    ∀ (l : List ℚ) (b : ℚ), pickBest f b l = b ∨ pickBest f b l ∈ l := by
  intro l
  induction l with
  | nil => intro b; left; rfl
  | cons x xs ih =>
    intro b
    by_cases hc : f b < f x
    · rw [pickBest_cons, if_pos hc]
      rcases ih x with h | h
      · right; rw [h]; exact List.mem_cons_self x xs
      · right; exact List.mem_cons_of_mem x h
    · rw [pickBest_cons, if_neg hc]
      rcases ih b with h | h
      · left; exact h
      · right; exact List.mem_cons_of_mem x h

lemma pickBest_max (f : ℚ → ℚ) :
    ∀ (l : List ℚ) (b : ℚ),
      f b ≤ f (pickBest f b l) ∧ ∀ x ∈ l, f x ≤ f (pickBest f b l) := by
  intro l
  induction l with
  | nil => intro b; exact ⟨le_refl _, by simp⟩
  | cons x xs ih =>
    intro b
    by_cases hc : f b < f x
    · rw [pickBest_cons, if_pos hc]
      rcases ih x with ⟨hb, hall⟩
      refine ⟨le_of_lt (lt_of_lt_of_le hc hb), ?_⟩
      intro y hy
      rcases List.mem_cons.mp hy with rfl | hy
      · exact hb
      · exact hall y hy
    · rw [pickBest_cons, if_neg hc]
      rcases ih b with ⟨hb, hall⟩
      refine ⟨hb, ?_⟩
      intro y hy
      rcases List.mem_cons.mp hy with rfl | hy
      · exact le_trans (le_of_not_lt hc) hb
      · exact hall y hy

lemma pickBest_le (f : ℚ → ℚ) (a : ℚ) :
    ∀ (l : List ℚ) (b : ℚ), b ≤ a → (a ∈ l ∨ f a ≤ f b) →
      (∀ x ∈ l, b ≤ x) → l.Sorted (fun u v => u ≤ v) →
      (∀ x ∈ l, a ≤ x → f x ≤ f a) → pickBest f b l ≤ a := by
  intro l
  induction l with
  | nil =>
    intro b hba hmem _ _ _
    rcases hmem with h | _
    · exact absurd h (List.not_mem_nil a)
    · exact hba
  | cons x xs ih =>
    intro b hba hmem hlow hsort hkey
    have hsx : ∀ y ∈ xs, x ≤ y := (List.sorted_cons.mp hsort).1
    have hsxs : xs.Sorted (fun u v => u ≤ v) := (List.sorted_cons.mp hsort).2
    by_cases hc : f b < f x
    · rw [pickBest_cons, if_pos hc]
      have hxa : x ≤ a := by
        by_contra hxa
        push_neg at hxa
        have hfx : f x ≤ f a := hkey x (List.mem_cons_self x xs) (le_of_lt hxa)
        rcases hmem with hin | hfb
        · rcases List.mem_cons.mp hin with rfl | hin
          · exact absurd (le_refl a) (not_le.mpr hxa)
          · exact absurd (hsx a hin) (not_le.mpr hxa)
        · exact absurd (lt_of_le_of_lt (le_trans hfx hfb) hc) (lt_irrefl (f x))
      refine ih x hxa ?_ hsx hsxs (fun y hy hay => hkey y (List.mem_cons_of_mem x hy) hay)
      rcases hmem with hin | hfb
      · rcases List.mem_cons.mp hin with rfl | hin
        · right; exact le_refl _
        · left; exact hin
      · right
        exact le_of_lt (lt_of_le_of_lt hfb hc)
    · rw [pickBest_cons, if_neg hc]
      refine ih b hba ?_ (fun y hy => hlow y (List.mem_cons_of_mem x hy)) hsxs
        (fun y hy hay => hkey y (List.mem_cons_of_mem x hy) hay)
      rcases hmem with hin | hfb
      · rcases List.mem_cons.mp hin with rfl | hin
        · right; exact le_of_not_lt hc
        · left; exact hin
      · right; exact hfb

lemma candidates_sorted (obs : List Obs) :
    (candidates obs).Sorted (fun u v => u ≤ v) :=
  List.sorted_insertionSort _ _

lemma hitCorrect_mono (o : Obs) {a b : ℚ} (hab : a ≤ b)
    (h : hitCorrect o a = true) : hitCorrect o b = true := by
  unfold hitCorrect at h ⊢
  cases hf : o.found with
  | none => rw [hf] at h; exact absurd h (by simp)
  | some m =>
    rw [hf] at h
    simp only [Bool.and_eq_true, decide_eq_true_eq] at h ⊢
    exact ⟨le_trans h.1 hab, h.2⟩

lemma isTP_mono (o : Obs) {a b : ℚ} (hab : a ≤ b)
    (h : isTP o a = true) : isTP o b = true := by
  unfold isTP at h ⊢
  simp only [Bool.and_eq_true] at h ⊢
  exact ⟨h.1, hitCorrect_mono o hab h.2⟩

lemma isFP_mono (o : Obs) {a b : ℚ} (hab : a ≤ b)
    (h : isFP o a = true) : isFP o b = true := by
  unfold isFP at h ⊢
  cases hf : o.found with
  | none => rw [hf] at h; exact absurd h (by simp)
  | some m =>
    rw [hf] at h
    simp only [Bool.and_eq_true, decide_eq_true_eq] at h ⊢
    exact ⟨le_trans h.1 hab, h.2⟩

lemma tpCount_mono (obs : List Obs) {a b : ℚ} (hab : a ≤ b) :
    tpCount obs a ≤ tpCount obs b :=
  length_filter_mono _ _ obs (fun o _ h => isTP_mono o hab h)

lemma fpCount_mono (obs : List Obs) {a b : ℚ} (hab : a ≤ b) :
    fpCount obs a ≤ fpCount obs b :=
  length_filter_mono _ _ obs (fun o _ h => isFP_mono o hab h)

lemma length_filter_and_not {α : Type} (p q : α → Bool) (l : List α) :
    (l.filter fun a => p a && q a).length + (l.filter fun a => p a && !q a).length
      = (l.filter p).length := by
  induction l with
  | nil => rfl
  | cons a l ih =>
    simp only [List.filter_cons]
    cases hp : p a <;> cases hq : q a <;>
      simp only [Bool.true_and, Bool.false_and, Bool.not_true, Bool.not_false,
        Bool.and_true, Bool.and_false, if_true, if_false, Bool.false_eq_true,
        reduceIte, List.length_cons] <;> omega

lemma tp_add_fn (obs : List Obs) (θ : ℚ) :
    tpCount obs θ + fnCount obs θ = posCount obs := by
  have h := length_filter_and_not (fun o => o.expected != "")
    (fun o => hitCorrect o θ) obs
  simpa only [tpCount, fnCount, posCount, isTP, isFN] using h

lemma tp_le_pos (obs : List Obs) (θ : ℚ) : tpCount obs θ ≤ posCount obs := by
  have := tp_add_fn obs θ
  omega

lemma metricScore_precision (tp fp fn : ℕ) :
    metricScore "precision" tp fp fn = Rat.divInt (tp : ℤ) ((tp : ℤ) + (fp : ℤ)) := rfl

lemma metricScore_recall (tp fp fn : ℕ) :
    metricScore "recall" tp fp fn = Rat.divInt (tp : ℤ) ((tp : ℤ) + (fn : ℤ)) := rfl

lemma score_precision_def (obs : List Obs) (θ : ℚ) :
    score obs "precision" θ =
      ((tpCount obs θ : ℚ)) / ((tpCount obs θ : ℚ) + (fpCount obs θ : ℚ)) := by
  unfold score
  rw [metricScore_precision, Rat.divInt_eq_div]
  push_cast
  ring

lemma score_recall_def (obs : List Obs) (θ : ℚ) :
    score obs "recall" θ =
      ((tpCount obs θ : ℚ)) / ((tpCount obs θ : ℚ) + (fnCount obs θ : ℚ)) := by
  unfold score
  rw [metricScore_recall, Rat.divInt_eq_div]
  push_cast
  ring

lemma observeE_error (c : Cache) (t : TestCase) (e : OptError)
    (h : observeE c t = Except.error e) : e = OptError.upstreamFailure := by
  unfold observeE at h
  by_cases hf : c.fails t.query = true
  · rw [if_pos hf] at h
    exact (Except.error.inj h).symm
  · rw [if_neg hf] at h
    exact absurd h (by simp)

lemma mapExcept_error_upstream (c : Cache) :
    ∀ (td : List TestCase) (e : OptError),
      mapExcept (observeE c) td = Except.error e → e = OptError.upstreamFailure := by
  intro td
  induction td with
  | nil => intro e h; exact absurd h (by simp [mapExcept])
  | cons t rest ih =>
    intro e h
    unfold mapExcept at h
    cases ho : observeE c t with
    | error e2 =>
      rw [ho] at h
      rw [observeE_error c t e2 ho] at h
      exact (Except.error.inj h).symm
    | ok b =>
      rw [ho] at h
      cases hr : mapExcept (observeE c) rest with
      | error e2 =>
        rw [hr] at h
        rw [ih e2 hr] at h
        exact (Except.error.inj h).symm
      | ok bs =>
        rw [hr] at h
        exact absurd h (by simp)

lemma mapExcept_fails (c : Cache) :
    ∀ (td : List TestCase) (t : TestCase), t ∈ td → c.fails t.query = true →
      mapExcept (observeE c) td = Except.error OptError.upstreamFailure := by
  intro td
  induction td with
  | nil => intro t ht _; exact absurd ht (List.not_mem_nil t)
  | cons t0 rest ih =>
    intro t ht hf
    unfold mapExcept
    by_cases h0 : c.fails t0.query = true
    · rw [show observeE c t0 = Except.error OptError.upstreamFailure from by
        unfold observeE; rw [if_pos h0]]
    · have ho : observeE c t0 = Except.ok
          { expected := t0.query_match, found := nearest c t0.query } := by
        unfold observeE; rw [if_neg h0]
      rw [ho]
      have htr : t ∈ rest := by
        rcases List.mem_cons.mp ht with rfl | hr
        · exact absurd hf h0
        · exact hr
      rw [ih t htr hf]

lemma nearest_congr (c d : Cache) (he : c.entries = d.entries)
    (hd : c.dist = d.dist) (q : String) : nearest c q = nearest d q := by
  unfold nearest
  rw [he, hd]

lemma observeE_congr (c d : Cache) (he : c.entries = d.entries)
    (hd : c.dist = d.dist) (hf : c.fails = d.fails) (t : TestCase) :
    observeE c t = observeE d t := by
  unfold observeE
  rw [hf, nearest_congr c d he hd]

lemma mapExcept_congr {α β : Type} (f g : α → Except OptError β)
    (h : ∀ a, f a = g a) : ∀ l : List α, mapExcept f l = mapExcept g l := by
  intro l
  induction l with
  | nil => rfl
  | cons a as ih =>
    unfold mapExcept
    rw [h a, ih]

lemma runOpt_entries (c : Cache) (obs : List Obs) (m : String) :
    (runOpt c obs m).entries = c.entries := by
  unfold runOpt
  cases bestThreshold obs m <;> rfl

lemma runOpt_dist (c : Cache) (obs : List Obs) (m : String) :
    (runOpt c obs m).dist = c.dist := by
  unfold runOpt
  cases bestThreshold obs m <;> rfl

lemma runOpt_fails (c : Cache) (obs : List Obs) (m : String) :
    (runOpt c obs m).fails = c.fails := by
  unfold runOpt
  cases bestThreshold obs m <;> rfl

lemma optimize_ok_inv (c : Cache) (td : List TestCase) (m : String) (d : Cache)
    (h : optimize c td m = Except.ok d) :
    td.isEmpty = false ∧ validMetric m = true ∧
      ∃ obs, mapExcept (observeE c) td = Except.ok obs ∧ d = runOpt c obs m := by
  unfold optimize at h
  by_cases h1 : td.isEmpty = true
  · rw [if_pos h1] at h
    exact absurd h (by simp)
  · rw [if_neg h1] at h
    by_cases h2 : validMetric m = true
    · rw [if_pos h2] at h
      cases hm : mapExcept (observeE c) td with
      | error e => rw [hm] at h; exact absurd h (by simp)
      | ok obs =>
        rw [hm] at h
        exact ⟨Bool.not_eq_true _ ▸ h1, h2, obs, rfl, (Except.ok.inj h).symm⟩
    · rw [if_neg h2] at h
      exact absurd h (by simp)

lemma validMetric_iff (m : String) :
    validMetric m = true ↔ (m = "f1" ∨ m = "precision" ∨ m = "recall") := by
  unfold validMetric
  simp only [Bool.or_eq_true, beq_iff_eq]
  tauto

/-- C1, corrected claim: whenever the distance-collection pass succeeds and at
least one distance was observed, `optimize` sets the cache's distance
threshold to a value that was actually evaluated as a candidate (no
interpolation), namely the evaluated candidate achieving the maximum score of
the requested metric, with ties broken by choosing the smallest such
threshold.  (The original claim, quantified over every cache, fails when no
distance can be observed: see the counterexample.) -/
theorem C1_optimal (c : Cache) (td : List TestCase) (m : String)
    (obs : List Obs) (d : Cache)
    (hok : optimize c td m = Except.ok d)
    (hobs : mapExcept (observeE c) td = Except.ok obs)
    (hne : candidates obs ≠ []) :
    d.distance_threshold ∈ candidates obs ∧
      (∀ t ∈ candidates obs, score obs m t ≤ score obs m d.distance_threshold) ∧
      (∀ t ∈ candidates obs, score obs m t = score obs m d.distance_threshold →
        d.distance_threshold ≤ t) := by
  obtain ⟨h1, h2, obs2, hm2, hd⟩ := optimize_ok_inv c td m d hok
  rw [hobs] at hm2
  obtain rfl : obs = obs2 := Except.ok.inj hm2
  cases hc : candidates obs with
  | nil => exact absurd hc hne
  | cons c0 cs =>
    have hbest : bestThreshold obs m = some (pickBest (score obs m) c0 cs) := by
      unfold bestThreshold
      rw [hc]
    have hdth : d.distance_threshold = pickBest (score obs m) c0 cs := by
      rw [hd]
      unfold runOpt
      rw [hbest]
    have hsort := candidates_sorted obs
    rw [hc] at hsort
    have hlow : ∀ x ∈ cs, c0 ≤ x := (List.sorted_cons.mp hsort).1
    have hsxs : cs.Sorted (fun u v => u ≤ v) := (List.sorted_cons.mp hsort).2
    obtain ⟨hb0, hmax⟩ := pickBest_max (score obs m) cs c0
    refine ⟨?_, ?_, ?_⟩
    · rw [hdth]
      rcases pickBest_mem (score obs m) cs c0 with h | h
      · rw [h]
        exact List.mem_cons_self c0 cs
      · exact List.mem_cons_of_mem c0 h
    · intro t ht
      rw [hdth]
      rcases List.mem_cons.mp ht with rfl | ht
      · exact hb0
      · exact hmax t ht
    · intro t ht heq
      rw [hdth] at heq ⊢
      refine pickBest_le (score obs m) t cs c0 ?_ ?_ hlow hsxs ?_
      · rcases List.mem_cons.mp ht with rfl | h
        · exact le_refl t
        · exact hlow t h
      · rcases List.mem_cons.mp ht with rfl | h
        · right
          exact le_refl _
        · left
          exact h
      · intro x hx _
        rw [heq]
        exact hmax x hx

/-- C1 witness: on the concrete spec-example cache and test data the selected
threshold is one of the evaluated candidates. -/
theorem C1_optimal_witness :
    (runOpt exCache exObs "f1").distance_threshold ∈ candidates exObs :=
  (C1_optimal exCache exTd "f1" exObs (runOpt exCache exObs "f1")
    rfl (by decide) (by decide)).1

/-- C1 counterexample: with a cache that stores no entries and a non-empty
test set, `optimize` succeeds but no distance was observed, so the resulting
threshold (the unchanged 0.5) is not a value that was evaluated as a
candidate during the search. -/
theorem C1_counterexample :
    ¬ thresholdAfter emptyCache exTd "f1" ∈ runCandidates emptyCache exTd := by
  decide

/-- C2: `optimize` fails with InvalidInput exactly when the test data is
empty or the requested metric is not one of f1, precision, recall; and with
empty test data the cache's distance threshold is unchanged after the failed
call. -/
theorem C2_invalid_input (c : Cache) (td : List TestCase) (m : String) :
    (optimize c td m = Except.error OptError.invalidInput ↔
      td = [] ∨ ¬(m = "f1" ∨ m = "precision" ∨ m = "recall")) ∧
    (td = [] → thresholdAfter c td m = c.distance_threshold) := by
  constructor
  · constructor
    · intro h
      by_cases h1 : td.isEmpty = true
      · left
        exact List.isEmpty_iff.mp h1
      · right
        rw [← validMetric_iff]
        unfold optimize at h
        rw [if_neg h1] at h
        by_cases h2 : validMetric m = true
        · rw [if_pos h2] at h
          cases hm : mapExcept (observeE c) td with
          | error e =>
            rw [hm] at h
            rw [mapExcept_error_upstream c td e hm] at h
            exact absurd (Except.error.inj h) (by simp)
          | ok obs =>
            rw [hm] at h
            exact absurd h (by simp)
        · exact h2
    · intro h
      unfold optimize
      rcases h with rfl | h
      · rfl
      · rw [← validMetric_iff] at h
        by_cases h1 : td.isEmpty = true
        · rw [if_pos h1]
        · rw [if_neg h1, if_neg h]
  · intro h
    subst h
    rfl

/-- C2 witness: the empty test set on the concrete cache yields InvalidInput
and leaves the threshold unchanged. -/
theorem C2_invalid_input_witness :
    optimize exCache [] "f1" = Except.error OptError.invalidInput ∧
      thresholdAfter exCache [] "f1" = exCache.distance_threshold :=
  ⟨(C2_invalid_input exCache [] "f1").1.mpr (Or.inl rfl),
    (C2_invalid_input exCache [] "f1").2 rfl⟩

/-- C4 counterexample: on the spec's own example -- one stored entry, the
true-match query at observed distance 0.08 expecting the stored key and the
other query at observed distance 0.42 expecting no match -- `optimize` with
the f1 metric selects exactly 0.08, which is not strictly greater than 0.08
as the claim requires. -/
theorem C4_counterexample :
    ¬ (mkRat 2 25 < thresholdAfter exCache exTd "f1" ∧
        thresholdAfter exCache exTd "f1" ≤ mkRat 21 50) := by
  decide

/-- C4, corrected claim: on that test data `optimize` with the f1 metric
selects a threshold at least 0.08 and at most 0.42 (in fact exactly 0.08, the
observed distance of the true match: a hit requires distance at most the
threshold, both test cases are then classified correctly at 0.08, and the
smallest-threshold tie-break keeps the tighter candidate). -/
theorem C4_amended :
    thresholdAfter exCache exTd "f1" = mkRat 2 25 ∧
      mkRat 2 25 ≤ thresholdAfter exCache exTd "f1" ∧
      thresholdAfter exCache exTd "f1" ≤ mkRat 21 50 := by
  decide

/-- C7: an optimization run mutates only the cache's live distance threshold:
the stored entries (with their identifiers, prompts, responses and vectors),
the distance oracle and the failure behaviour are all unchanged, and no entry
is deleted, whether the run succeeds or fails. -/
theorem C7_frame (c : Cache) (td : List TestCase) (m : String) :
    (cacheAfter c td m).entries = c.entries ∧
      (cacheAfter c td m).dist = c.dist ∧
      (cacheAfter c td m).fails = c.fails := by
  unfold cacheAfter
  cases h : optimize c td m with
  | error e => exact ⟨rfl, rfl, rfl⟩
  | ok d =>
    obtain ⟨-, -, obs, -, hd⟩ := optimize_ok_inv c td m d h
    rw [hd]
    exact ⟨runOpt_entries c obs m, runOpt_dist c obs m, runOpt_fails c obs m⟩

/-- C8: if the upstream store call raises for some test query during an
optimization run with a valid metric, `optimize` propagates the
UpstreamFailure to the caller and the whole run aborts with the cache's
threshold unchanged -- no partial result is applied. -/
theorem C8_upstream (c : Cache) (td : List TestCase) (m : String) (t : TestCase)
    (hm : validMetric m = true) (ht : t ∈ td) (hf : c.fails t.query = true) :
    optimize c td m = Except.error OptError.upstreamFailure ∧
      thresholdAfter c td m = c.distance_threshold := by
  have hne : td.isEmpty = false := by
    cases td with
    | nil => exact absurd ht (List.not_mem_nil t)
    | cons a l => rfl
  have hmap := mapExcept_fails c td t ht hf
  have hopt : optimize c td m = Except.error OptError.upstreamFailure := by
    unfold optimize
    rw [if_neg (by rw [hne]; exact Bool.false_ne_true), if_pos hm, hmap]
  refine ⟨hopt, ?_⟩
  unfold thresholdAfter cacheAfter
  rw [hopt]

/-- C8 witness: a cache whose upstream call raises on the Britain query
aborts the whole run with UpstreamFailure and an unchanged threshold. -/
theorem C8_upstream_witness :
    optimize failCache exTd "f1" = Except.error OptError.upstreamFailure ∧
      thresholdAfter failCache exTd "f1" = failCache.distance_threshold :=
  C8_upstream failCache exTd "f1" { query := "capital of Britain?", query_match := "" }
    (by decide) (by decide) (by decide)

/-- C5: a second `optimize` run on the cache produced by a successful first
run -- identical cache contents, identical test data, identical metric --
succeeds and returns the very same cache, so the resulting distance threshold
is identical both times (the optimizer is deterministic for a fixed candidate
set and tie-break rule). -/
theorem C5_deterministic (c : Cache) (td : List TestCase) (m : String) (d : Cache)
    (h : optimize c td m = Except.ok d) :
    optimize d td m = Except.ok d := by
  obtain ⟨h1, h2, obs, hm, hd⟩ := optimize_ok_inv c td m d h
  have hent : d.entries = c.entries := by rw [hd]; exact runOpt_entries c obs m
  have hdist : d.dist = c.dist := by rw [hd]; exact runOpt_dist c obs m
  have hfails : d.fails = c.fails := by rw [hd]; exact runOpt_fails c obs m
  have hobs2 : mapExcept (observeE d) td = Except.ok obs := by
    rw [mapExcept_congr (observeE d) (observeE c)
      (fun t => observeE_congr d c hent hdist hfails t) td]
    exact hm
  unfold optimize
  rw [if_neg (by rw [h1]; exact Bool.false_ne_true), if_pos h2, hobs2]
  have hrun : runOpt d obs m = d := by
    unfold runOpt
    cases hb : bestThreshold obs m with
    | none => rfl
    | some w =>
      have hth : d.distance_threshold = w := by
        rw [hd]
        unfold runOpt
        rw [hb]
      rw [← hth]
  show Except.ok (runOpt d obs m) = Except.ok d
  rw [hrun]

/-- C5 witness: re-running the optimizer on the concrete optimized cache
returns that cache unchanged. -/
theorem C5_deterministic_witness :
    optimize (runOpt exCache exObs "f1") exTd "f1" =
      Except.ok (runOpt exCache exObs "f1") :=
  C5_deterministic exCache exTd "f1" (runOpt exCache exObs "f1") rfl

lemma check_length_mono (c : Cache) (q : String) {a b : ℚ} (hab : a ≤ b) :
    ((setThreshold c a).check q).length ≤ ((setThreshold c b).check q).length := by
  unfold Cache.check setThreshold
  rw [List.length_insertionSort, List.length_insertionSort]
  apply length_filter_mono
  intro m _ hm
  simp only [decide_eq_true_eq] at hm ⊢
  exact le_trans hm hab

/-- C3: for a fixed query set, raising the distance threshold never decreases
the total number of matches `check` returns -- the count of returned matches
is monotonically non-decreasing in the threshold. -/
theorem C3_monotone (c : Cache) (qs : List String) (t1 t2 : ℚ) (h : t1 < t2) :
    matchCount (setThreshold c t1) qs ≤ matchCount (setThreshold c t2) qs := by
  unfold matchCount
  induction qs with
  | nil => exact le_refl _
  | cons q qs ih =>
    simp only [List.map_cons, List.sum_cons]
    exact Nat.add_le_add (check_length_mono c q (le_of_lt h)) ih

/-- C3 witness: on the concrete cache, two matches are returned at threshold
0.5 and at least as many as at threshold 0.1. -/
theorem C3_monotone_witness :
    matchCount (setThreshold exCache (mkRat 1 10))
        ["capital of France?", "capital of Britain?"] ≤
      matchCount (setThreshold exCache (mkRat 1 2))
        ["capital of France?", "capital of Britain?"] :=
  C3_monotone exCache ["capital of France?", "capital of Britain?"]
    (mkRat 1 10) (mkRat 1 2) (by decide)

lemma tp_max_of_recall_max (obs : List Obs) (r x : ℚ)
    (hx : score obs "recall" x ≤ score obs "recall" r) :
    tpCount obs x ≤ tpCount obs r := by
  by_cases hp : posCount obs = 0
  · have h1 := tp_le_pos obs x
    omega
  · rw [score_recall_def, score_recall_def] at hx
    have e1 : ((tpCount obs x : ℚ)) + (fnCount obs x : ℚ) = (posCount obs : ℚ) := by
      exact_mod_cast tp_add_fn obs x
    have e2 : ((tpCount obs r : ℚ)) + (fnCount obs r : ℚ) = (posCount obs : ℚ) := by
      exact_mod_cast tp_add_fn obs r
    rw [e1, e2] at hx
    have hpos : (0 : ℚ) < (posCount obs : ℚ) := by
      exact_mod_cast Nat.pos_of_ne_zero hp
    have := (div_le_div_iff_of_pos_right hpos).mp hx
    exact_mod_cast this

lemma pickBest_precision_le_recall (obs : List Obs) (c0 : ℚ) (cs : List ℚ)
    (hsort : (c0 :: cs).Sorted (fun u v => u ≤ v)) :
    pickBest (score obs "precision") c0 cs ≤ pickBest (score obs "recall") c0 cs := by
  have hlow : ∀ x ∈ cs, c0 ≤ x := (List.sorted_cons.mp hsort).1
  have hsxs : cs.Sorted (fun u v => u ≤ v) := (List.sorted_cons.mp hsort).2
  obtain ⟨hrb, hrmax⟩ := pickBest_max (score obs "recall") cs c0
  have hrmem := pickBest_mem (score obs "recall") cs c0
  set r := pickBest (score obs "recall") c0 cs with hr
  have hc0r : c0 ≤ r := by
    rcases hrmem with h | h
    · rw [h]
    · exact hlow r h
  have hkey : ∀ x ∈ cs, r ≤ x →
      score obs "precision" x ≤ score obs "precision" r := by
    intro x hx hrx
    have h1 : tpCount obs x ≤ tpCount obs r :=
      tp_max_of_recall_max obs r x (hrmax x hx)
    have h2 : tpCount obs r ≤ tpCount obs x := tpCount_mono obs hrx
    have htp_eq : tpCount obs x = tpCount obs r := le_antisymm h1 h2
    have hfp : fpCount obs r ≤ fpCount obs x := fpCount_mono obs hrx
    rw [score_precision_def, score_precision_def, htp_eq]
    by_cases htp0 : tpCount obs r = 0
    · rw [htp0]
      simp
    · have htpq : (0 : ℚ) < (tpCount obs r : ℚ) := by
        exact_mod_cast Nat.pos_of_ne_zero htp0
      have hfpq : (fpCount obs r : ℚ) ≤ (fpCount obs x : ℚ) := by
        exact_mod_cast hfp
      have hfpq0 : (0 : ℚ) ≤ (fpCount obs r : ℚ) := by positivity
      apply div_le_div_of_nonneg_left (le_of_lt htpq)
      · linarith
      · linarith
  refine pickBest_le (score obs "precision") r cs c0 hc0r ?_ hlow hsxs hkey
  rcases hrmem with h | h
  · right
    rw [h]
  · left
    exact h

/-- C6: on the same cache and the same test data, the threshold selected by
`optimize` with the precision metric is at most the threshold selected with
the recall metric (recall is non-decreasing in the threshold since true
positives plus false negatives is constant, while past the recall optimum
precision can only fall, so the precision optimum never lies to its
right). -/
theorem C6_precision_le_recall (c : Cache) (td : List TestCase) :
    thresholdAfter c td "precision" ≤ thresholdAfter c td "recall" := by
  unfold thresholdAfter cacheAfter optimize
  by_cases h1 : td.isEmpty = true
  · rw [if_pos h1, if_pos h1]
  · rw [if_neg h1, if_neg h1]
    rw [if_pos (show validMetric "precision" = true from rfl),
      if_pos (show validMetric "recall" = true from rfl)]
    cases hm : mapExcept (observeE c) td with
    | error e => exact le_refl _
    | ok obs =>
      show (runOpt c obs "precision").distance_threshold ≤
        (runOpt c obs "recall").distance_threshold
      unfold runOpt bestThreshold
      cases hc : candidates obs with
      | nil => exact le_refl _
      | cons c0 cs =>
        have hsort := candidates_sorted obs
        rw [hc] at hsort
        exact pickBest_precision_le_recall obs c0 cs hsort

lemma foldl_storeFaq (faqs : List Faq) :
    ∀ init : DocCache,
      (faqs.foldl storeFaq init).stored =
        init.stored ++ (faqs.filter faqValid).map extractQA := by
  induction faqs with
  | nil =>
    intro init
    simp
  | cons f rest ih =>
    intro init
    rw [List.foldl_cons, ih (storeFaq init f), List.filter_cons]
    cases hv : faqValid f with
    | false =>
      have hstep : storeFaq init f = init := by
        cases f with
        | none => rfl
        | some kvs =>
          simp only [faqValid] at hv
          simp [storeFaq, hv]
      rw [hstep]
      simp
    | true =>
      have hstep : storeFaq init f =
          init.store (extractQA f).1 (extractQA f).2 := by
        cases f with
        | none =>
          simp only [faqValid] at hv
          exact absurd hv (by simp)
        | some kvs =>
          simp only [faqValid] at hv
          simp [storeFaq, extractQA, hv]
      rw [hstep]
      simp [DocCache.store]

/-- C9: `to_semantic_cache` stores into the cache exactly those elements of
`faqs` that are truthy and contain both a "question" and an "answer" key, in
list order, as their (question, answer) pairs; malformed elements are
silently skipped and the function is total (no failure). -/
theorem C9_to_semantic_cache (faqs : List Faq) :
    (to_semantic_cache faqs).stored = (faqs.filter faqValid).map extractQA := by
  unfold to_semantic_cache
  rw [foldl_storeFaq]
  rfl

/-- C10: `replace_year` returns the Unix timestamp of 1998-01-01 whenever its
input is one of the listed roman-numeral strings -- so any two inputs from
that list map to the same timestamp -- and otherwise returns the Unix
timestamp of January 1 of the year `int(x)`, whenever `int(x)` parses to a
year `datetime` accepts. -/
theorem C10_replace_year :
    (∀ x ∈ roman_numerals, replace_year x = some (timestampOfJan1 1998)) ∧
    (∀ (x : String) (y : ℤ), x ∉ roman_numerals → parseInt x = some y →
      1 ≤ y → y ≤ 9999 → replace_year x = some (timestampOfJan1 y.toNat)) ∧
    (∀ a b, a ∈ roman_numerals → b ∈ roman_numerals →
      replace_year a = replace_year b) := by
  have hrom : ∀ x ∈ roman_numerals,
      replace_year x = some (timestampOfJan1 1998) := by
    intro x hx
    unfold replace_year
    rw [if_pos hx]
  refine ⟨hrom, ?_, ?_⟩
  · intro x y hx hp h1 h2
    unfold replace_year
    rw [if_neg hx, hp]
    show (if 1 ≤ y ∧ y ≤ 9999 then some (timestampOfJan1 y.toNat) else none) = _
    rw [if_pos ⟨h1, h2⟩]
  · intro a b ha hb
    rw [hrom a ha, hrom b hb]

/-- C10 witness: the roman-numeral string maps to the 1998 timestamp and the
year string "1994" to the 1994 timestamp. -/
theorem C10_replace_year_witness :
    replace_year "(IV)" = some (timestampOfJan1 1998) ∧
      replace_year "1994" = some (timestampOfJan1 1994) :=
  ⟨C10_replace_year.1 "(IV)" (by decide),
    C10_replace_year.2.1 "1994" 1994 (by decide) (by decide) (by decide) (by decide)⟩
